import Mathlib

/-!
Verification of the flipping repository's page-turn interaction core.

This file shallowly embeds, in Lean 4, the parts of the TypeScript source
that the verified claims are about:

* `src/packages/frontend/src/interaction/physics.ts` — the `PagePhysics`
  spring-damper simulator (embedded over `ℚ`; JavaScript numbers are
  modelled by exact rationals, all operations used are field operations,
  `min`/`max` and comparisons).
* `src/packages/frontend/src/interaction/stateMachine.ts` — the
  `FlipbookStateMachine` class (a pure state structure; the mutating
  methods become functions from machine to machine).
* `src/packages/frontend/src/interaction/controller.ts` — the parts of
  `FlipbookController` that guard input handling.
* the `TextureCache` class (LRU texture cache) and
  `enforcePageCacheWindow` from `main.ts`.
* `src/packages/frontend/src/renderer/dflipDeform.ts` —
  `updateSheetGeometry`, embedded over `ℝ` (it uses trigonometry and
  square roots).

Conventions: a TypeScript class instance is a structure value; a method
that mutates the instance becomes a function returning the new value
(and, when the method returns something, a pair).  Listener callbacks
(`onStateChange`) and GPU-resource release (`texture.dispose()`) are
side effects with no bearing on the claims and carry no model state.
-/

namespace Flipping

/-! ## Page physics (`physics.ts`)

`PagePhysics` with the default configuration `DEFAULT_CONFIG`
(springK = 120, damping = 14, mass = 1, restThreshold = 0.001).
The state is `{position, velocity, target}`. -/

structure PhysicsState where
  position : ℚ
  velocity : ℚ
  target : ℚ
  deriving DecidableEq, Repr

namespace PagePhysics

/-- `setPosition(position)`: clamp into `[0,1]`, zero the velocity. -/
def setPosition (s : PhysicsState) (position : ℚ) : PhysicsState :=
  { s with position := max 0 (min 1 position), velocity := 0 }

/-- `release(target, initialVelocity)`. -/
def release (s : PhysicsState) (target initialVelocity : ℚ) : PhysicsState :=
  { s with target := target, velocity := initialVelocity }

/-- `isAtRest()`: both the distance to target and the speed are below
`restThreshold = 0.001`. -/
def isAtRest (s : PhysicsState) : Prop :=
  |s.position - s.target| < 1 / 1000 ∧ |s.velocity| < 1 / 1000

instance (s : PhysicsState) : Decidable (isAtRest s) := by
  unfold isAtRest; infer_instance

/-- `step(deltaTime)`: one semi-implicit Euler step.  `deltaTime` is
clamped to at most `0.033`; spring force `-120·(position − target)`,
damping force `-14·velocity`, acceleration `(spring+damping)/1`;
velocity then position are updated; the position is stopped and the
velocity zeroed at a boundary that is being exited, and finally the
position is clamped into `[0,1]`. -/
def step (deltaTime : ℚ) (s : PhysicsState) : PhysicsState :=
  let dt := min deltaTime (33 / 1000)
  let displacement := s.position - s.target
  let springForce := -(120 : ℚ) * displacement
  let dampingForce := -(14 : ℚ) * s.velocity
  let acceleration := (springForce + dampingForce) / 1
  let v1 := s.velocity + acceleration * dt
  let x1 := s.position + v1 * dt
  let bounced :=
    if x1 ≤ 0 ∧ v1 < 0 then ((0 : ℚ), (0 : ℚ))
    else if x1 ≥ 1 ∧ v1 > 0 then ((1 : ℚ), (0 : ℚ))
    else (x1, v1)
  { position := max 0 (min 1 bounced.1), velocity := bounced.2,
    target := s.target }

/-- Verification auxiliary (not part of the source): the quadratic
Lyapunov function `120·dt²·(position − target)² + (dt·velocity)²`
used to prove that `step` converges. -/
def lyap (dt : ℚ) (s : PhysicsState) : ℚ :=
  120 * dt ^ 2 * (s.position - s.target) ^ 2 + (dt * s.velocity) ^ 2

end PagePhysics

/-! ## Interaction state machine (`stateMachine.ts`) -/

inductive FlipbookState where
  | IDLE
  | HOVER_CORNER_RIGHT
  | HOVER_CORNER_LEFT
  | DRAGGING_FORWARD
  | DRAGGING_BACKWARD
  | ANIMATING_FORWARD
  | ANIMATING_BACKWARD
  | SETTLING
  deriving DecidableEq, Repr

inductive Side where
  | left
  | right
  deriving DecidableEq, Repr

inductive Direction where
  | forward
  | backward
  deriving DecidableEq, Repr

structure DragData where
  startX : ℚ
  startY : ℚ
  currentX : ℚ
  currentY : ℚ
  progress : ℚ
  deriving DecidableEq, Repr

structure FlipbookStateMachine where
  state : FlipbookState
  dragData : Option DragData
  currentPage : ℤ
  totalPages : ℤ
  pageStep : ℤ
  deriving DecidableEq, Repr

structure EndDragResult where
  shouldComplete : Bool
  direction : Direction
  deriving DecidableEq, Repr

namespace FlipbookStateMachine

/-- `setState(newState)` (the listener callbacks carry no model state). -/
def setState (sm : FlipbookStateMachine) (newState : FlipbookState) :
    FlipbookStateMachine :=
  if sm.state = newState then sm else { sm with state := newState }

def canTurnForward (sm : FlipbookStateMachine) : Bool :=
  sm.currentPage + sm.pageStep < sm.totalPages

def canTurnBackward (sm : FlipbookStateMachine) : Bool :=
  sm.currentPage - sm.pageStep ≥ 0

/-- `startDrag(x, y, side)`: returns the new machine and the boolean
result.  Note the method guards only on turnability, not on the current
state. -/
def startDrag (sm : FlipbookStateMachine) (x y : ℚ) (side : Side) :
    FlipbookStateMachine × Bool :=
  if side = Side.right ∧ ¬canTurnForward sm then (sm, false)
  else if side = Side.left ∧ ¬canTurnBackward sm then (sm, false)
  else
    let d : DragData :=
      { startX := x, startY := y, currentX := x, currentY := y, progress := 0 }
    let sm1 := { sm with dragData := some d }
    if side = Side.right then (setState sm1 FlipbookState.DRAGGING_FORWARD, true)
    else (setState sm1 FlipbookState.DRAGGING_BACKWARD, true)

/-- `updateDrag(x, y, progress)`. -/
def updateDrag (sm : FlipbookStateMachine) (x y progress : ℚ) :
    FlipbookStateMachine :=
  if sm.state ≠ FlipbookState.DRAGGING_FORWARD ∧
      sm.state ≠ FlipbookState.DRAGGING_BACKWARD then sm
  else
    match sm.dragData with
    | none => sm
    | some d =>
      let d1 := { d with currentX := x, currentY := y, progress := max 0 (min 1 progress) }
      { sm with dragData := some d1 }

/-- `endDrag()`: returns the new machine and
`{shouldComplete, direction}`. -/
def endDrag (sm : FlipbookStateMachine) :
    FlipbookStateMachine × EndDragResult :=
  let direction := if sm.state = FlipbookState.DRAGGING_FORWARD
    then Direction.forward else Direction.backward
  let progress : ℚ := match sm.dragData with
    | some d => d.progress
    | none => 0
  let shouldComplete : Bool := progress > 1 / 2
  let res : EndDragResult := { shouldComplete := shouldComplete, direction := direction }
  if shouldComplete then
    let animState := if direction = Direction.forward
      then FlipbookState.ANIMATING_FORWARD else FlipbookState.ANIMATING_BACKWARD
    (setState sm animState, res)
  else
    (setState sm FlipbookState.SETTLING, res)

/-- `completeAnimation(direction)`. -/
def completeAnimation (sm : FlipbookStateMachine) (direction : Direction) :
    FlipbookStateMachine :=
  let sm1 := if direction = Direction.forward
    then { sm with currentPage := min (sm.currentPage + sm.pageStep) (sm.totalPages - 1) }
    else { sm with currentPage := max (sm.currentPage - sm.pageStep) 0 }
  setState { sm1 with dragData := none } FlipbookState.IDLE

/-- `completeSettling()`. -/
def completeSettling (sm : FlipbookStateMachine) : FlipbookStateMachine :=
  setState { sm with dragData := none } FlipbookState.IDLE

/-- `turnPage(direction)`: returns the new machine and the boolean
result. -/
def turnPage (sm : FlipbookStateMachine) (direction : Direction) :
    FlipbookStateMachine × Bool :=
  if sm.state ≠ FlipbookState.IDLE then (sm, false)
  else if direction = Direction.forward ∧ ¬canTurnForward sm then (sm, false)
  else if direction = Direction.backward ∧ ¬canTurnBackward sm then (sm, false)
  else
    let d : DragData :=
      { startX := 0, startY := 0, currentX := 0, currentY := 0, progress := 0 }
    let sm1 := { sm with dragData := some d }
    let animState := if direction = Direction.forward
      then FlipbookState.ANIMATING_FORWARD else FlipbookState.ANIMATING_BACKWARD
    (setState sm1 animState, true)

end FlipbookStateMachine

/-! ## Flipbook controller (`controller.ts`)

Only the fields read or written by the embedded handlers are modelled.
Pointer positions are container-local coordinates (the subtraction of
the bounding-rectangle origin in `getPointerPosition` is the identity in
this frame).  `startAnimationLoop` schedules an animation-frame callback
and touches no state the claims mention. -/

structure FlipbookController where
  sm : FlipbookStateMachine
  physics : PhysicsState
  isDragging : Bool
  dragStartX : ℚ
  containerWidth : ℚ
  /-- `config.turnAreaFraction` (`DEFAULT_CONFIG` value 0.3). -/
  turnAreaFraction : ℚ
  deriving DecidableEq, Repr

namespace FlipbookController

open FlipbookStateMachine PagePhysics

/-- `detectTurnZone(x)`. -/
def detectTurnZone (c : FlipbookController) (x : ℚ) : Option Side :=
  let turnZoneWidth := c.containerWidth * c.turnAreaFraction
  if x > c.containerWidth - turnZoneWidth then some Side.right
  else if x < turnZoneWidth then some Side.left
  else none

/-- `handlePointerDown(e)` with the pointer at container-local `(x, y)`.
The first line returns unchanged unless the machine is `IDLE`. -/
def handlePointerDown (c : FlipbookController) (x y : ℚ) :
    FlipbookController :=
  if c.sm.state ≠ FlipbookState.IDLE then c
  else
    match detectTurnZone c x with
    | some Side.right =>
      if canTurnForward c.sm then
        let sm1 := (startDrag c.sm x y Side.right).1
        { c with isDragging := true, dragStartX := x, sm := sm1, physics := setPosition c.physics 0 }
      else c
    | some Side.left =>
      if canTurnBackward c.sm then
        let sm1 := (startDrag c.sm x y Side.left).1
        { c with isDragging := true, dragStartX := x, sm := sm1, physics := setPosition c.physics 0 }
      else c
    | none => c

/-- `turnPageForward()`: returns the new controller and the boolean
result. -/
def turnPageForward (c : FlipbookController) : FlipbookController × Bool :=
  if c.sm.state ≠ FlipbookState.IDLE then (c, false)
  else if ¬canTurnForward c.sm then (c, false)
  else
    let sm1 := (turnPage c.sm Direction.forward).1
    let ph := release (setPosition c.physics 0) 1 (3 / 2)
    ({ c with sm := sm1, physics := ph }, true)

/-- `turnPageBackward()`. -/
def turnPageBackward (c : FlipbookController) : FlipbookController × Bool :=
  if c.sm.state ≠ FlipbookState.IDLE then (c, false)
  else if ¬canTurnBackward c.sm then (c, false)
  else
    let sm1 := (turnPage c.sm Direction.backward).1
    let ph := release (setPosition c.physics 0) 1 (3 / 2)
    ({ c with sm := sm1, physics := ph }, true)

end FlipbookController

/-! ## Texture cache (`TextureCache`)

A JavaScript `Map<string, CachedTexture>` is modelled as an association
list in insertion order with pairwise distinct keys (`Map` keys are
unique; `Map.set` on an existing key keeps its position, on a new key
appends; iteration follows that order).  `texture.dispose()` releases a
GPU resource and carries no model state, so the texture handle is an
opaque number.  `Date.now()` timestamps are passed in explicitly. -/

structure CachedTexture where
  key : String
  /-- opaque decoded-texture handle -/
  texture : ℕ
  width : ℚ
  height : ℚ
  lastUsed : ℤ
  deriving DecidableEq, Repr

structure TextureCache where
  limit : ℕ
  items : List (String × CachedTexture)
  deriving DecidableEq, Repr

namespace TextureCache

/-- `Map.get` followed by `cached.lastUsed = now` on the hit (the entry
keeps its position). -/
def getOp (c : TextureCache) (key : String) (now : ℤ) : TextureCache :=
  let touch := fun (e : String × CachedTexture) =>
    if e.1 = key then (e.1, { e.2 with lastUsed := now }) else e
  { c with items := c.items.map touch }

/-- `Map.set(key, value)`: replace in place when the key exists,
append otherwise. -/
def mapSet : List (String × CachedTexture) → String → CachedTexture →
    List (String × CachedTexture)
  | [], key, value => [(key, value)]
  | e :: rest, key, value =>
    if e.1 = key then (key, value) :: rest else e :: mapSet rest key value

/-- `Map.delete(key)` (a key occurs at most once in a `Map`). -/
def deleteKey : List (String × CachedTexture) → String →
    List (String × CachedTexture)
  | [], _ => []
  | e :: rest, key => if e.1 = key then rest else e :: deleteKey rest key

/-- The comparator `(a, b) => a.lastUsed - b.lastUsed` as a Boolean
relation; JavaScript `Array.prototype.sort` is stable, as is
`List.mergeSort`. -/
def byLastUsed (a b : CachedTexture) : Bool := a.lastUsed ≤ b.lastUsed

/-- `evict()`: when over the limit, sort the values by `lastUsed`
ascending and delete the first `size - limit` of them by key. -/
def evict (c : TextureCache) : TextureCache :=
  if c.items.length ≤ c.limit then c
  else
    let entries := (c.items.map Prod.snd).mergeSort byLastUsed
    let toRemove := entries.take (c.items.length - c.limit)
    { c with items := toRemove.foldl (fun its it => deleteKey its it.key) c.items }

/-- `set(key, value)`: insert, then evict. -/
def setOp (c : TextureCache) (key : String) (value : CachedTexture) :
    TextureCache :=
  evict { c with items := mapSet c.items key value }

/-- One `get`/`set` call against the cache. -/
inductive Op where
  | get (key : String) (now : ℤ)
  | set (key : String) (value : CachedTexture)
  deriving DecidableEq, Repr

def applyOp (c : TextureCache) : Op → TextureCache
  | Op.get key now => getOp c key now
  | Op.set key value => setOp c key value

/-- A fresh `new TextureCache(limit)` after a sequence of calls. -/
def runOps (limit : ℕ) (ops : List Op) : TextureCache :=
  ops.foldl applyOp { limit := limit, items := [] }

/-- `set(key, value)` calls in the program always store the value under
its own `key` field (`main.ts` builds the entry with `key: cacheKey`). -/
def OpsWF (ops : List Op) : Prop :=
  ∀ key value, Op.set key value ∈ ops → value.key = key

/-- `Map` well-formedness: distinct keys, each value keyed by its own
map key. -/
def WF (c : TextureCache) : Prop :=
  (c.items.map Prod.fst).Nodup ∧ ∀ e ∈ c.items, e.2.key = e.1

end TextureCache

/-! ## Page-render cache window (`enforcePageCacheWindow`, `main.ts`)

Every key of `pageRenderCache` is built by `buildPageCacheKey`
(`main.ts`): the string
`` `${documentId}|${mode}|${pageNumber}|${scale}|${w}x${h}` ``.
Keys are modelled structurally as that tuple; splitting on `"|"`
recovers the fields (`parts[0]` the document id, `parts[2]` the decimal
page number), so `parts.length < 4` and `Number.parseInt` failure never
occur on a key the program constructed, and those two guard branches
are vacuous.  `pageCacheWindow = 3`. -/

structure PageKey where
  docId : String
  mode : String
  pageNumber : ℤ
  /-- `${scale}|${targetWidth}x${targetHeight}` — opaque to the window
  logic. -/
  sizeTag : String
  deriving DecidableEq, Repr

/-- Remove the entry with this key (a `Map` holds it at most once). -/
def deletePageKey : List PageKey → PageKey → List PageKey
  | [], _ => []
  | e :: rest, key => if e = key then rest else e :: deletePageKey rest key

/-- The module-level state read by `enforcePageCacheWindow`. -/
structure PageCacheEnv where
  documentId : Option String
  /-- `resolveLayout()` result: `"double"` or `"single"`. -/
  layoutMode : String
  currentSpreadLeft : ℤ
  currentPageNumber : ℤ
  totalDocumentPages : ℤ
  deriving DecidableEq, Repr

/-- `enforcePageCacheWindow()` acting on the key set of
`pageRenderCache`: iterate a snapshot of the keys and delete every key
for another document and every key whose page number lies outside
`[max(1, base − 3), min(totalDocumentPages, base + 3)]`. -/
def enforcePageCacheWindow (env : PageCacheEnv) (cache : List PageKey) :
    List PageKey :=
  match env.documentId with
  | none => cache
  | some docId =>
    let base := if env.layoutMode = "double" then env.currentSpreadLeft
      else max 1 env.currentPageNumber
    let minPage := max 1 (base - 3)
    let maxPage := min env.totalDocumentPages (base + 3)
    let keys := cache
    keys.foldl (fun c key =>
      if key.docId ≠ docId then deletePageKey c key
      else if key.pageNumber < minPage ∨ key.pageNumber > maxPage then
        deletePageKey c key
      else c) cache

/-! ## Sheet deformation (`dflipDeform.ts`, `updateSheetGeometry`)

Embedded over `ℝ` (the code uses `Math.sin`, `Math.cos` and distances).
`THREE.Vector3` is a triple; `THREE.CubicBezierCurve3.getPoints(w)`
samples the cubic Bézier at `t = d / w` for `d = 0 … w`;
`a.distanceTo(b)` is the Euclidean distance.  The geometry passed in is
built by `createSheetGeometry` (same repository), whose
`userData.layout` is `E = max(segments + 1, 2)`, `frontTop = 0`,
`frontBottom = E`, `backTop = 2E`, `backBottom = 3E`, with `4E` vertices
in total. -/

noncomputable section

structure V3 where
  x : ℝ
  y : ℝ
  z : ℝ

instance : Inhabited V3 := ⟨⟨0, 0, 0⟩⟩

/-- `THREE.Vector3.distanceTo`. -/
def dist3 (a b : V3) : ℝ :=
  Real.sqrt ((a.x - b.x) ^ 2 + (a.y - b.y) ^ 2 + (a.z - b.z) ^ 2)

/-- One coordinate of a cubic Bézier curve. -/
def bez1 (c0 c1 c2 c3 t : ℝ) : ℝ :=
  (1 - t) ^ 3 * c0 + 3 * (1 - t) ^ 2 * t * c1 + 3 * (1 - t) * t ^ 2 * c2 +
    t ^ 3 * c3

/-- `THREE.CubicBezierCurve3.getPoint(t)`. -/
def bez3 (p0 p1 p2 p3 : V3) (t : ℝ) : V3 :=
  ⟨bez1 p0.x p1.x p2.x p3.x t, bez1 p0.y p1.y p2.y p3.y t,
   bez1 p0.z p1.z p2.z p3.z t⟩

/-- `SheetDeformParams` (`orientation` is the flag
`orientation === "vertical"`). -/
structure SheetDeformParams where
  width : ℝ
  height : ℝ
  depth : ℝ
  segments : ℕ
  sheetAngleDeg : ℝ
  curveAngleDeg : ℝ
  flexibility : ℝ
  isHard : Bool
  vertical : Bool
  pageOffset : ℝ
  pageSide : ℝ

namespace SheetDeform

/-- `DEG2RAD = Math.PI / 180`. -/
def DEG2RAD : ℝ := Real.pi / 180

variable (P : SheetDeformParams)

/-- `nearFlat = sheetAngleDeg < 1 || sheetAngleDeg > 179`. -/
def nearFlat : Prop := P.sheetAngleDeg < 1 ∨ P.sheetAngleDeg > 179

instance : Decidable (nearFlat P) := by unfold nearFlat; infer_instance

/-- `e = isHard || nearFlat ? 0 : flexibility`. -/
def eEff : ℝ := if P.isHard = true ∨ nearFlat P then 0 else P.flexibility

/-- The axis the sheet bends along: `height` for vertical orientation,
`width` otherwise. -/
def axisLen : ℝ := if P.vertical = true then P.height else P.width

/-- `baseAxis = axisLength * (1 - Math.sin((e / 2) * (e / 2)) / 2 - e / 20)`
(the local `n`). -/
def baseAxis : ℝ :=
  axisLen P * (1 - Real.sin (eEff P / 2 * (eEff P / 2)) / 2 - eEff P / 20)

/-- The baseline axis length as the specification words it:
`baseAxis = axisLength * (1 − sin²(e/2)/2 − e/20)`.  Written from the
spec, to be compared with `baseAxis` above, which follows the source. -/
def baseAxisSpec : ℝ :=
  axisLen P * (1 - Real.sin (eEff P / 2) ^ 2 / 2 - eEff P / 20)

/-- `o = n * e`. -/
def oLen : ℝ := baseAxis P * eEff P

/-- `f = sheetAngleDeg * DEG2RAD`. -/
def fAng : ℝ := P.sheetAngleDeg * DEG2RAD

/-- `g = isHard ? f : curveAngleDeg * DEG2RAD`. -/
def gAng : ℝ := if P.isHard = true then fAng P else P.curveAngleDeg * DEG2RAD

/-- `m = v - Math.PI / 2` with `v = f`. -/
def mAng : ℝ := fAng P - Real.pi / 2

/-- `y = Math.sin(m) * p / 2` with `p = depth`. -/
def yOff : ℝ := Real.sin (mAng P) * P.depth / 2

/-- Front-curve control points `h[0] … h[3]`. -/
def h0 : V3 :=
  ⟨-baseAxis P * Real.cos (fAng P), 0, Real.sin (fAng P) * baseAxis P - yOff P⟩

def h1 : V3 :=
  ⟨-baseAxis P / 2 * Real.cos (gAng P), 0,
   baseAxis P / 2 * Real.sin (gAng P) - yOff P⟩

/-- `v2 = (45 + sheetAngleDeg / 2) * DEG2RAD`. -/
def v2Ang : ℝ := (45 + P.sheetAngleDeg / 2) * DEG2RAD

def h2 : V3 :=
  ⟨-Real.cos (v2Ang P) * oLen P / 2, 0,
   Real.sin (v2Ang P) * oLen P - yOff P⟩

def h3 : V3 := ⟨0, 0, -yOff P⟩

/-- Back-curve control points `u[0] … u[3]` before the snap of small
`x` values to zero. -/
def u0 : V3 :=
  ⟨(h0 P).x - Real.cos (mAng P) * P.depth, 0, (h0 P).z + 2 * yOff P⟩

def u1 : V3 :=
  ⟨(h1 P).x - Real.cos (mAng P) * P.depth, 0, (h1 P).z + 2 * yOff P⟩

def u2raw : V3 :=
  ⟨(h2 P).x + Real.cos (mAng P) * P.depth, 0, (h2 P).z + 2 * yOff P⟩

def u3raw : V3 :=
  ⟨(h3 P).x - Real.cos (mAng P) * P.depth, 0, (h3 P).z + 2 * yOff P⟩

/-- `if (Math.abs(u[2].x) < 5e-4) u[2].x = 0`. -/
def u2 : V3 :=
  if |(u2raw P).x| < 5 / 10000 then { u2raw P with x := 0 } else u2raw P

def u3 : V3 :=
  if |(u3raw P).x| < 5 / 10000 then { u3raw P with x := 0 } else u3raw P

/-- `w = Math.max(segments - 1, 1)` (natural subtraction models the
`segments ≥ 1` callers). -/
def wSeg : ℕ := max (P.segments - 1) 1

/-- `frontCurve.getPoints(w)`. -/
def frontBase : List V3 :=
  (List.range (wSeg P + 1)).map
    (fun (d : ℕ) => bez3 (h0 P) (h1 P) (h2 P) (h3 P) ((d : ℝ) / (wSeg P : ℝ)))

/-- `backCurve.getPoints(w)`. -/
def backBase : List V3 :=
  (List.range (wSeg P + 1)).map
    (fun (d : ℕ) => bez3 (u0 P) (u1 P) (u2 P) (u3 P) ((d : ℝ) / (wSeg P : ℝ)))

/-- `if (w > 2) frontPts.push(frontPts[w].clone())`. -/
def frontPts : List V3 :=
  if wSeg P > 2 then frontBase P ++ [(frontBase P).getD (wSeg P) default]
  else frontBase P

def backPts : List V3 :=
  if wSeg P > 2 then backBase P ++ [(backBase P).getD (wSeg P) default]
  else backBase P

/-- Cumulative chord length along a point list:
`arc[0] = 0`, `arc[i] = arc[i-1] + pts[i].distanceTo(pts[i-1])`. -/
def arcAt (pts : List V3) : ℕ → ℝ
  | 0 => 0
  | r + 1 => arcAt pts r + dist3 (pts.getD (r + 1) default) (pts.getD r default)

/-- `arcLength`, the total front arc. -/
def arcLength : ℝ := arcAt (frontPts P) ((frontPts P).length - 1)

/-- `backArcLength`. -/
def backArcLength : ℝ := arcAt (backPts P) ((backPts P).length - 1)

/-- `layout.E` of the geometry built by `createSheetGeometry`. -/
def layoutE : ℕ := max (P.segments + 1) 2

/-- `uArc = arcLength > 0 ? arc[r] / arcLength : r / Math.max(1, E - 1)`. -/
def uArc (r : ℕ) : ℝ :=
  if arcLength P > 0 then arcAt (frontPts P) r / arcLength P
  else (r : ℝ) / (max 1 (layoutE P - 1) : ℕ)

/-- `uBackArc = backArcLength > 0 ? backArc[r] / backArcLength
  : r / Math.max(1, E - 1)`. -/
def uBackArc (r : ℕ) : ℝ :=
  if backArcLength P > 0 then arcAt (backPts P) r / backArcLength P
  else (r : ℝ) / (max 1 (layoutE P - 1) : ℕ)

/-- `setUv(attr, index, x, y)`: writes only when `0 ≤ index < count`.
The `uv` buffer is a map from vertex index to its `(u, v)` pair. -/
def setUv (count : ℕ) (buf : ℕ → ℝ × ℝ) (index : ℕ) (val : ℝ × ℝ) :
    ℕ → ℝ × ℝ :=
  if index < count then Function.update buf index val else buf

/-- The four `setUv` calls of one iteration of the row loop (`uFront`
is side-dependent, `uBack` is `uBackArc` unconditionally). -/
def writeRowUv (buf : ℕ → ℝ × ℝ) (r : ℕ) : ℕ → ℝ × ℝ :=
  let E := layoutE P
  let count := E * 4
  let uFront := if P.pageSide > 0 then 1 - uArc P r else uArc P r
  let uBack := uBackArc P r
  setUv count
    (setUv count
      (setUv count
        (setUv count buf (0 + r) (uFront, 0))
        (E + r) (uFront, 1))
      (2 * E + r) (uBack, 0))
    (3 * E + r) (uBack, 1)

/-- The row loop `for (let r = 0; r < E; r++)` acting on the `uv`
attribute. -/
def uvAfter (buf : ℕ → ℝ × ℝ) : ℕ → ℝ × ℝ :=
  (List.range (layoutE P)).foldl (writeRowUv P) buf

end SheetDeform

open SheetDeform in
/-- A concrete, representative parameter set: a unit sheet at 90
degrees, fully flexible, 20 segments. -/
noncomputable def sampleParams : SheetDeformParams :=
  { width := 1, height := 1, depth := 1 / 50, segments := 20,
    sheetAngleDeg := 90, curveAngleDeg := 60, flexibility := 1,
    isHard := false, vertical := false, pageOffset := 0, pageSide := 1 }

end

/-! ## Helper lemmas -/

namespace FlipbookStateMachine

@[simp] lemma setState_state (sm : FlipbookStateMachine) (s : FlipbookState) :
    (setState sm s).state = s := by
  unfold setState; split_ifs with h
  · exact h
  · rfl

@[simp] lemma setState_currentPage (sm : FlipbookStateMachine)
    (s : FlipbookState) : (setState sm s).currentPage = sm.currentPage := by
  unfold setState; split_ifs <;> rfl

@[simp] lemma setState_dragData (sm : FlipbookStateMachine)
    (s : FlipbookState) : (setState sm s).dragData = sm.dragData := by
  unfold setState; split_ifs <;> rfl

lemma setState_eq (sm : FlipbookStateMachine) (s : FlipbookState) :
    setState sm s = { sm with state := s } := by
  unfold setState; split_ifs with h
  · cases sm; simp_all
  · rfl

end FlipbookStateMachine

namespace PagePhysics

lemma physics_key (dt u w : ℚ) (h1 : 0 < dt) (h2 : dt ≤ 33 / 1000) :
    120 * dt ^ 2 * ((1 - 120 * dt ^ 2) * u + (1 - 14 * dt) * w) ^ 2 +
        ((1 - 14 * dt) * w - 120 * dt ^ 2 * u) ^ 2 ≤
      (1 - 60 * dt ^ 2) * (120 * dt ^ 2 * u ^ 2 + w ^ 2) := by
  have hdt2 : dt * dt ≤ 33 / 1000 * (33 / 1000) := mul_le_mul h2 h2 h1.le (by norm_num)
  have p1 : (0 : ℚ) < dt ^ 2 := pow_pos h1 2
  have p0 : (0 : ℚ) < 120 * dt ^ 2 := by nlinarith
  have p2 : (0 : ℚ) < 1 / 2 - 120 * dt ^ 2 := by nlinarith
  have hA : (0 : ℚ) < (120 * dt ^ 2) ^ 2 * (1 / 2 - 120 * dt ^ 2) :=
    mul_pos (pow_pos p0 2) p2
  have hq : (0 : ℚ) ≤ 806400 - 10828800 * dt - 96768000 * dt ^ 2 +
      1092096000 * dt ^ 3 := by
    nlinarith [pow_nonneg h1.le 3, hdt2, h1.le]
  have h5 : (0 : ℚ) ≤ dt ^ 5 := pow_nonneg h1.le 5
  have hdisc : (2 * (120 * dt ^ 2) ^ 2 * (1 - 14 * dt)) ^ 2 ≤
      4 * ((120 * dt ^ 2) ^ 2 * (1 / 2 - 120 * dt ^ 2)) *
        ((1 - 60 * dt ^ 2) - (1 + 120 * dt ^ 2) * (1 - 14 * dt) ^ 2) := by
    nlinarith [mul_nonneg h5 hq]
  have hid : 4 * ((120 * dt ^ 2) ^ 2 * (1 / 2 - 120 * dt ^ 2)) *
      ((1 - 60 * dt ^ 2) * (120 * dt ^ 2 * u ^ 2 + w ^ 2) -
        (120 * dt ^ 2 * ((1 - 120 * dt ^ 2) * u + (1 - 14 * dt) * w) ^ 2 +
          ((1 - 14 * dt) * w - 120 * dt ^ 2 * u) ^ 2)) =
      (2 * ((120 * dt ^ 2) ^ 2 * (1 / 2 - 120 * dt ^ 2)) * u +
          2 * (120 * dt ^ 2) ^ 2 * (1 - 14 * dt) * w) ^ 2 +
        (4 * ((120 * dt ^ 2) ^ 2 * (1 / 2 - 120 * dt ^ 2)) *
            ((1 - 60 * dt ^ 2) - (1 + 120 * dt ^ 2) * (1 - 14 * dt) ^ 2) -
          (2 * (120 * dt ^ 2) ^ 2 * (1 - 14 * dt)) ^ 2) * w ^ 2 := by
    ring
  nlinarith [hid, hA,
    sq_nonneg (2 * ((120 * dt ^ 2) ^ 2 * (1 / 2 - 120 * dt ^ 2)) * u +
      2 * (120 * dt ^ 2) ^ 2 * (1 - 14 * dt) * w),
    mul_nonneg (by linarith : (0 : ℚ) ≤ 4 * ((120 * dt ^ 2) ^ 2 *
      (1 / 2 - 120 * dt ^ 2)) * ((1 - 60 * dt ^ 2) -
        (1 + 120 * dt ^ 2) * (1 - 14 * dt) ^ 2) -
      (2 * (120 * dt ^ 2) ^ 2 * (1 - 14 * dt)) ^ 2) (sq_nonneg w)]

set_option maxHeartbeats 2000000 in
lemma lyap_step (dt : ℚ) (s : PhysicsState) (h1 : 0 < dt)
    (h2 : dt ≤ 33 / 1000) (hx0 : 0 ≤ s.position) (hx1 : s.position ≤ 1)
    (ht : s.target = 0 ∨ s.target = 1) :
    lyap dt (step dt s) ≤ (1 - 60 * dt ^ 2) * lyap dt s := by
  have hdt2 : dt * dt ≤ 33 / 1000 * (33 / 1000) := mul_le_mul h2 h2 h1.le (by norm_num)
  have hrho : (0 : ℚ) ≤ 1 - 60 * dt ^ 2 := by nlinarith
  have hp0 : (0 : ℚ) ≤ 120 * dt ^ 2 := by positivity
  have hkey := physics_key dt (s.position - s.target) (dt * s.velocity) h1 h2
  have hlyap : (0 : ℚ) ≤ 120 * dt ^ 2 * (s.position - s.target) ^ 2 + (dt * s.velocity) ^ 2 := by positivity
  unfold step
  simp only [min_eq_left h2]
  set v1 := s.velocity + (-(120 : ℚ) * (s.position - s.target) + -(14 : ℚ) * s.velocity) / 1 * dt with hv1
  set x1 := s.position + v1 * dt with hx1def
  have ev : (1 - 14 * dt) * (dt * s.velocity) - 120 * dt ^ 2 * (s.position - s.target) = dt * v1 := by
    rw [hv1]; ring
  have ex : (1 - 120 * dt ^ 2) * (s.position - s.target) + (1 - 14 * dt) * (dt * s.velocity) = x1 - s.target := by
    rw [hx1def, hv1]; ring
  rw [ev, ex] at hkey
  split_ifs with hA hB
  · -- stop at the 0 boundary: the result state is (0, 0)
    rcases ht with h0 | h0 <;> rw [h0] at hkey ⊢ <;> unfold lyap <;> rw [h0] <;> norm_num
    · exact mul_nonneg hrho (by positivity)
    · -- target 1, result value 120·dt²; (x1 − 1)² ≥ 1 since x1 ≤ 0
      have hsq : (0 : ℚ) ≤ (x1 - 1) ^ 2 - 1 := by nlinarith [mul_nonneg (neg_nonneg.2 hA.1) (by linarith [hA.1] : (0 : ℚ) ≤ 2 - x1)]
      have h120 : 120 * dt ^ 2 ≤ 120 * dt ^ 2 * (x1 - 1) ^ 2 := by nlinarith [mul_nonneg hp0 hsq]
      have := sq_nonneg (dt * v1)
      linarith [hkey]
  · -- stop at the 1 boundary: the result state is (1, 0)
    rcases ht with h0 | h0 <;> rw [h0] at hkey ⊢ <;> unfold lyap <;> rw [h0] <;> norm_num
    · -- target 0, result value 120·dt²; x1² ≥ 1 since x1 ≥ 1
      have hsq : (0 : ℚ) ≤ x1 ^ 2 - 1 := by nlinarith [mul_nonneg (by linarith [hB.1] : (0 : ℚ) ≤ x1 - 1) (by linarith [hB.1] : (0 : ℚ) ≤ x1 + 1)]
      have h120 : 120 * dt ^ 2 ≤ 120 * dt ^ 2 * x1 ^ 2 := by nlinarith [mul_nonneg hp0 hsq]
      have := sq_nonneg (dt * v1)
      linarith [hkey]
    · exact mul_nonneg hrho (by positivity)
  · -- interior step: the final clamp is the identity
    have hge : 0 ≤ x1 := by
      by_contra hlt
      push_neg at hlt
      have hv : v1 < 0 := by
        have hvd : v1 * dt < 0 := by rw [hx1def] at hlt; linarith
        by_contra hv
        push_neg at hv
        nlinarith
      exact hA ⟨hlt.le, hv⟩
    have hle : x1 ≤ 1 := by
      by_contra hlt
      push_neg at hlt
      have hv : 0 < v1 := by
        have hvd : 0 < v1 * dt := by rw [hx1def] at hlt; linarith
        by_contra hv
        push_neg at hv
        nlinarith
      exact hB ⟨hlt.le, hv⟩
    unfold lyap
    rw [min_eq_right hle, max_eq_right hge]
    exact hkey

lemma step_pos_bounds (dt : ℚ) (s : PhysicsState) :
    0 ≤ (step dt s).position ∧ (step dt s).position ≤ 1 := by
  unfold step
  refine ⟨le_max_left _ _, ?_⟩
  exact max_le (by norm_num) (min_le_left _ _)

lemma step_target (dt : ℚ) (s : PhysicsState) :
    (step dt s).target = s.target := rfl

lemma iter_invariant (dt : ℚ) (s : PhysicsState) (hx0 : 0 ≤ s.position)
    (hx1 : s.position ≤ 1) (n : ℕ) :
    (0 ≤ ((step dt)^[n] s).position ∧ ((step dt)^[n] s).position ≤ 1) ∧
      ((step dt)^[n] s).target = s.target := by
  induction n with
  | zero => exact ⟨⟨hx0, hx1⟩, rfl⟩
  | succ m ihm =>
    rw [Function.iterate_succ_apply']
    exact ⟨step_pos_bounds dt _, by rw [step_target]; exact ihm.2⟩

lemma lyap_iter (dt : ℚ) (s : PhysicsState) (h1 : 0 < dt)
    (h2 : dt ≤ 33 / 1000) (hx0 : 0 ≤ s.position) (hx1 : s.position ≤ 1)
    (ht : s.target = 0 ∨ s.target = 1) (n : ℕ) :
    lyap dt ((step dt)^[n] s) ≤ (1 - 60 * dt ^ 2) ^ n * lyap dt s := by
  have hdt2 : dt * dt ≤ 33 / 1000 * (33 / 1000) := mul_le_mul h2 h2 h1.le (by norm_num)
  have hrho : (0 : ℚ) ≤ 1 - 60 * dt ^ 2 := by nlinarith
  induction n with
  | zero => simp
  | succ n ih =>
    have hinv := iter_invariant dt s hx0 hx1 n
    have hstep := lyap_step dt ((step dt)^[n] s) h1 h2 hinv.1.1 hinv.1.2
      (by rw [hinv.2]; exact ht)
    rw [Function.iterate_succ_apply']
    calc lyap dt (step dt ((step dt)^[n] s)) ≤
        (1 - 60 * dt ^ 2) * lyap dt ((step dt)^[n] s) := hstep
      _ ≤ (1 - 60 * dt ^ 2) * ((1 - 60 * dt ^ 2) ^ n * lyap dt s) :=
        mul_le_mul_of_nonneg_left ih hrho
      _ = (1 - 60 * dt ^ 2) ^ (n + 1) * lyap dt s := by ring

lemma rest_of_small (dt : ℚ) (s : PhysicsState) (h1 : 0 < dt)
    (hV : lyap dt s < dt ^ 2 / 1000000) : isAtRest s := by
  have hdp : (0 : ℚ) < dt ^ 2 := pow_pos h1 2
  unfold lyap at hV
  constructor
  · rw [abs_lt]
    constructor <;> nlinarith [sq_nonneg (dt * s.velocity), sq_nonneg (s.position - s.target + 1 / 1000), sq_nonneg (s.position - s.target - 1 / 1000), mul_pos hdp hdp]
  · rw [abs_lt]
    constructor <;> nlinarith [sq_nonneg (s.position - s.target), sq_nonneg (dt * s.velocity + dt / 1000), sq_nonneg (dt * s.velocity - dt / 1000), mul_pos hdp hdp]

end PagePhysics

namespace TextureCache

lemma byLastUsed_trans : ∀ a b c : CachedTexture,
    byLastUsed a b = true → byLastUsed b c = true → byLastUsed a c = true := by
  intro a b c hab hbc
  simp only [byLastUsed, decide_eq_true_eq] at *
  omega

lemma byLastUsed_total : ∀ a b : CachedTexture,
    (byLastUsed a b || byLastUsed b a) = true := by
  intro a b
  simp only [byLastUsed, Bool.or_eq_true, decide_eq_true_eq]
  omega

/-- Deleting a key that occurs at most once is filtering it out. -/
lemma deleteKey_eq_filter (l : List (String × CachedTexture)) (k : String)
    (h : (l.map Prod.fst).Nodup) :
    deleteKey l k = l.filter (fun e => ¬e.1 = k) := by
  induction l with
  | nil => rfl
  | cons e rest ih =>
    simp only [List.map_cons, List.nodup_cons] at h
    by_cases hk : e.1 = k
    · rw [deleteKey, if_pos hk, List.filter_cons_of_neg (by simp [hk])]
      rw [List.filter_eq_self.2]
      intro a ha
      simp only [decide_eq_true_eq]
      intro hak
      exact h.1 (by rw [hk, ← hak]; exact List.mem_map_of_mem Prod.fst ha)
    · rw [deleteKey, if_neg hk, List.filter_cons_of_pos (by simp [hk]), ih h.2]

/-- Folding `Map.delete` over a list of values deletes exactly the
entries keyed by one of their keys. -/
lemma foldDelete_eq_filter (rem : List CachedTexture) :
    ∀ l : List (String × CachedTexture), (l.map Prod.fst).Nodup →
      rem.foldl (fun its it => deleteKey its it.key) l =
        l.filter (fun e => ¬e.1 ∈ rem.map CachedTexture.key) := by
  induction rem with
  | nil =>
    intro l _
    simp
  | cons r rs ih =>
    intro l h
    have hsub : ((l.filter (fun e => ¬e.1 = r.key)).map Prod.fst).Nodup :=
      List.Nodup.sublist (List.Sublist.map Prod.fst (List.filter_sublist l)) h
    rw [List.foldl_cons, deleteKey_eq_filter l r.key h, ih _ hsub,
      List.filter_filter]
    apply List.filter_congr
    intro a _
    by_cases h1 : a.1 = r.key <;>
      by_cases h2 : a.1 ∈ List.map CachedTexture.key rs <;> simp [h1, h2]

end TextureCache


namespace TextureCache

lemma key_inj {l : List CachedTexture} (h : (l.map CachedTexture.key).Nodup)
    {x y : CachedTexture} (hx : x ∈ l) (hy : y ∈ l) (hk : x.key = y.key) :
    x = y := by
  induction l with
  | nil => cases hx
  | cons a t ih =>
    simp only [List.map_cons, List.nodup_cons] at h
    rcases List.mem_cons.1 hx with rfl | hx2 <;>
      rcases List.mem_cons.1 hy with rfl | hy2
    · rfl
    · exact absurd (by rw [hk]; exact List.mem_map_of_mem CachedTexture.key hy2) h.1
    · exact absurd (by rw [← hk]; exact List.mem_map_of_mem CachedTexture.key hx2) h.1
    · exact ih h.2 hx2 hy2

lemma evict_over (c : TextureCache) (hfst : (c.items.map Prod.fst).Nodup)
    (hkey : ∀ e ∈ c.items, e.2.key = e.1) (hover : c.limit < c.items.length) :
    (evict c).items.length = c.limit ∧
    (∀ e ∈ (evict c).items, e ∈ c.items) ∧
    (∀ e ∈ (evict c).items, ∀ r ∈ c.items,
      r.1 ∉ (evict c).items.map Prod.fst → r.2.lastUsed ≤ e.2.lastUsed) := by
  set m := c.items.length - c.limit with hm
  set sorted := (c.items.map Prod.snd).mergeSort byLastUsed with hsorted_def
  have hperm : sorted.Perm (c.items.map Prod.snd) := List.mergeSort_perm _ _
  have hpair : List.Pairwise (fun a b => byLastUsed a b = true) sorted :=
    List.sorted_mergeSort byLastUsed_trans byLastUsed_total _
  have hmapeq : (c.items.map fun e => e.2.key) = c.items.map Prod.fst :=
    List.map_congr_left hkey
  have hskeys : (sorted.map CachedTexture.key).Nodup := by
    have hp2 : (sorted.map CachedTexture.key).Perm
        (c.items.map fun e => e.2.key) := by
      have := hperm.map CachedTexture.key
      rwa [List.map_map] at this
    rw [hp2.nodup_iff, hmapeq]
    exact hfst
  have hslen : sorted.length = c.items.length := by
    rw [hperm.length_eq, List.length_map]
  have hmle : m ≤ sorted.length := by omega
  have hbr : (evict c).items =
      c.items.filter
        (fun e => ¬e.1 ∈ (sorted.take m).map CachedTexture.key) := by
    unfold evict
    rw [if_neg (not_le.2 hover)]
    exact foldDelete_eq_filter _ _ hfst
  have hsplit : sorted.take m ++ sorted.drop m = sorted := List.take_append_drop m sorted
  have hdisj : ∀ a ∈ sorted.drop m, a.key ∉ (sorted.take m).map CachedTexture.key := by
    intro a hadrop hatake
    have hnd : ((sorted.take m).map CachedTexture.key ++
        (sorted.drop m).map CachedTexture.key).Nodup := by
      rw [← List.map_append, hsplit]; exact hskeys
    exact (List.nodup_append.1 hnd).2.2 hatake
      (List.mem_map_of_mem CachedTexture.key hadrop)
  refine ⟨?_, ?_, ?_⟩
  · -- length after eviction equals the limit
    have hcount : ((evict c).items).length =
        List.countP (fun v => ¬v.key ∈ (sorted.take m).map CachedTexture.key)
          sorted := by
      rw [hbr, ← List.countP_eq_length_filter]
      have h1 : List.countP
          (fun e => ¬(e : String × CachedTexture).1 ∈
            (sorted.take m).map CachedTexture.key) c.items =
          List.countP (fun v => ¬v.key ∈ (sorted.take m).map CachedTexture.key)
            (c.items.map Prod.snd) := by
        rw [List.countP_map]
        apply List.countP_congr
        intro e he
        simp only [Function.comp_apply, hkey e he]
      rw [h1, (hperm.countP_eq _)]
    have hsplitc : List.countP
        (fun v => ¬v.key ∈ (sorted.take m).map CachedTexture.key) sorted =
        List.countP
          (fun v => ¬v.key ∈ (sorted.take m).map CachedTexture.key)
          (sorted.take m) +
        List.countP
          (fun v => ¬v.key ∈ (sorted.take m).map CachedTexture.key)
          (sorted.drop m) := by
      have hca := List.countP_append
        (fun v => ¬v.key ∈ (sorted.take m).map CachedTexture.key)
        (sorted.take m) (sorted.drop m)
      rw [hsplit] at hca
      exact hca
    have hz : List.countP
        (fun v => ¬v.key ∈ (sorted.take m).map CachedTexture.key)
        (sorted.take m) = 0 := by
      rw [List.countP_eq_zero]
      intro a ha
      simp only [decide_not, Bool.not_eq_true', decide_eq_false_iff_not, not_not]
      exact List.mem_map_of_mem CachedTexture.key ha
    have hfull : List.countP
        (fun v => ¬v.key ∈ (sorted.take m).map CachedTexture.key)
        (sorted.drop m) = (sorted.drop m).length := by
      rw [List.countP_eq_length]
      intro a ha
      simp only [decide_not, Bool.not_eq_true', decide_eq_false_iff_not]
      exact fun h => hdisj a ha h
    rw [hcount, hsplitc, hz, hfull, List.length_drop, hslen]
    omega
  · -- the surviving entries come from the original list
    intro e he
    rw [hbr] at he
    exact (List.mem_filter.1 he).1
  · -- strict LRU: every evicted entry is at least as old as every kept one
    intro e he r hr hnot
    have hre : r.1 ∈ (sorted.take m).map CachedTexture.key := by
      by_contra hcon
      have : r ∈ (evict c).items := by
        rw [hbr]
        exact List.mem_filter.2 ⟨hr, by simpa using hcon⟩
      exact hnot (List.mem_map_of_mem Prod.fst this)
    obtain ⟨x, hx, hxkey⟩ := List.mem_map.1 hre
    have hr2 : r.2 ∈ sorted := hperm.mem_iff.2 (List.mem_map_of_mem Prod.snd hr)
    have hx2 : x ∈ sorted := List.take_subset m sorted hx
    have hxr : x = r.2 :=
      key_inj hskeys hx2 hr2 (by rw [hxkey, hkey r hr])
    have he_mem : e ∈ c.items := by
      rw [hbr] at he
      exact (List.mem_filter.1 he).1
    have he_keep : e.1 ∉ (sorted.take m).map CachedTexture.key := by
      rw [hbr] at he
      simpa using (List.mem_filter.1 he).2
    have hp : e.2 ∈ sorted := hperm.mem_iff.2 (List.mem_map_of_mem Prod.snd he_mem)
    have hedrop : e.2 ∈ sorted.drop m := by
      rcases List.mem_append.1 (by rw [hsplit]; exact hp) with htk | hdp
      · exact absurd (by rw [← hkey e he_mem]; exact List.mem_map_of_mem CachedTexture.key htk) he_keep
      · exact hdp
    have hrel : byLastUsed x e.2 = true := by
      have hp2 : List.Pairwise (fun a b => byLastUsed a b = true)
          (sorted.take m ++ sorted.drop m) := by rwa [hsplit]
      exact (List.pairwise_append.1 hp2).2.2 x hx e.2 hedrop
    rw [hxr] at hrel
    simpa [byLastUsed] using hrel

end TextureCache


namespace TextureCache

lemma deleteKey_sublist (l : List (String × CachedTexture)) (k : String) :
    List.Sublist (deleteKey l k) l := by
  induction l with
  | nil => simp [deleteKey]
  | cons e rest ih =>
    rw [deleteKey]
    split_ifs
    · exact (List.sublist_cons_self e rest)
    · exact ih.cons₂ e

lemma foldDelete_sublist (rem : List CachedTexture) :
    ∀ l : List (String × CachedTexture),
      List.Sublist (rem.foldl (fun its it => deleteKey its it.key) l) l := by
  induction rem with
  | nil => intro l; simp
  | cons r rs ih =>
    intro l
    exact (ih (deleteKey l r.key)).trans (deleteKey_sublist l r.key)

lemma evict_sublist (c : TextureCache) :
    List.Sublist (evict c).items c.items := by
  unfold evict
  split_ifs
  · exact List.Sublist.refl _
  · exact foldDelete_sublist _ _

lemma mapSet_fst_mem (l : List (String × CachedTexture)) (k : String)
    (v : CachedTexture) (a : String) :
    a ∈ (mapSet l k v).map Prod.fst ↔ a ∈ l.map Prod.fst ∨ a = k := by
  induction l with
  | nil => simp [mapSet]
  | cons e rest ih =>
    rw [mapSet]
    split_ifs with he
    · subst he
      simp
      tauto
    · simp [ih]
      tauto

lemma mapSet_fst_nodup (l : List (String × CachedTexture)) (k : String)
    (v : CachedTexture) (h : (l.map Prod.fst).Nodup) :
    ((mapSet l k v).map Prod.fst).Nodup := by
  induction l with
  | nil => simp [mapSet]
  | cons e rest ih =>
    simp only [List.map_cons, List.nodup_cons] at h
    rw [mapSet]
    split_ifs with he
    · simp only [List.map_cons, List.nodup_cons]
      exact ⟨he ▸ h.1, h.2⟩
    · simp only [List.map_cons, List.nodup_cons]
      refine ⟨?_, ih h.2⟩
      rw [mapSet_fst_mem]
      rintro (hin | rfl)
      · exact h.1 hin
      · exact he rfl

lemma mapSet_entries (l : List (String × CachedTexture)) (k : String)
    (v : CachedTexture) : ∀ e ∈ mapSet l k v, e = (k, v) ∨ e ∈ l := by
  induction l with
  | nil => simp [mapSet]
  | cons a rest ih =>
    intro e he
    rw [mapSet] at he
    split_ifs at he with ha
    · rcases List.mem_cons.1 he with rfl | hr
      · exact Or.inl rfl
      · exact Or.inr (List.mem_cons_of_mem a hr)
    · rcases List.mem_cons.1 he with rfl | hr
      · exact Or.inr (List.mem_cons_self _ _)
      · rcases ih e hr with h1 | h1
        · exact Or.inl h1
        · exact Or.inr (List.mem_cons_of_mem a h1)

lemma wf_evict (c : TextureCache) (h : WF c) : WF (evict c) := by
  obtain ⟨h1, h2⟩ := h
  have hs := evict_sublist c
  exact ⟨List.Nodup.sublist (hs.map Prod.fst) h1,
    fun e he => h2 e (hs.subset he)⟩

lemma wf_setOp (c : TextureCache) (k : String) (v : CachedTexture)
    (hv : v.key = k) (h : WF c) : WF (setOp c k v) := by
  apply wf_evict
  refine ⟨mapSet_fst_nodup _ _ _ h.1, ?_⟩
  intro e he
  rcases mapSet_entries _ _ _ e he with rfl | hin
  · exact hv
  · exact h.2 e hin

lemma getOp_fst (c : TextureCache) (k : String) (now : ℤ) :
    (getOp c k now).items.map Prod.fst = c.items.map Prod.fst := by
  unfold getOp
  rw [List.map_map]
  apply List.map_congr_left
  intro e _
  by_cases he : e.1 = k <;> simp [he]

lemma wf_getOp (c : TextureCache) (k : String) (now : ℤ) (h : WF c) :
    WF (getOp c k now) := by
  refine ⟨by rw [getOp_fst]; exact h.1, ?_⟩
  intro e he
  unfold getOp at he
  obtain ⟨a, ha, hae⟩ := List.mem_map.1 he
  by_cases hk : a.1 = k
  · rw [if_pos hk] at hae
    rw [← hae]
    exact h.2 a ha
  · rw [if_neg hk] at hae
    rw [← hae]
    exact h.2 a ha

lemma setOp_limit (c : TextureCache) (k : String) (v : CachedTexture) :
    (setOp c k v).limit = c.limit := by
  unfold setOp evict
  split_ifs <;> rfl

lemma setOp_length (c : TextureCache) (k : String) (v : CachedTexture)
    (hv : v.key = k) (h : WF c) : (setOp c k v).items.length ≤ c.limit := by
  unfold setOp
  set c1 : TextureCache := { c with items := mapSet c.items k v } with hc1
  have hwf1 : WF c1 := by
    refine ⟨mapSet_fst_nodup _ _ _ h.1, ?_⟩
    intro e he
    rcases mapSet_entries _ _ _ e he with rfl | hin
    · exact hv
    · exact h.2 e hin
  by_cases hle : c1.items.length ≤ c1.limit
  · unfold evict
    rw [if_pos hle]
    exact hle
  · exact le_of_eq (evict_over c1 hwf1.1 hwf1.2 (not_le.1 hle)).1

lemma applyOp_inv (c : TextureCache) (op : Op)
    (hop : ∀ k v, op = Op.set k v → v.key = k)
    (h : WF c ∧ c.items.length ≤ c.limit) :
    (WF (applyOp c op) ∧ (applyOp c op).items.length ≤ (applyOp c op).limit) ∧
      (applyOp c op).limit = c.limit := by
  cases op with
  | get k now =>
    simp only [applyOp]
    refine ⟨⟨wf_getOp c k now h.1, ?_⟩, rfl⟩
    show ((getOp c k now).items.length ≤ c.limit)
    unfold getOp
    rw [List.length_map]
    exact h.2
  | set k v =>
    have hv := hop k v rfl
    simp only [applyOp]
    refine ⟨⟨wf_setOp c k v hv h.1, ?_⟩, setOp_limit c k v⟩
    rw [setOp_limit]
    exact setOp_length c k v hv h.1

lemma foldOps_inv (ops : List Op) :
    ∀ c : TextureCache, (∀ k v, Op.set k v ∈ ops → v.key = k) →
      WF c ∧ c.items.length ≤ c.limit →
      (WF (ops.foldl applyOp c) ∧
        (ops.foldl applyOp c).items.length ≤ (ops.foldl applyOp c).limit) ∧
      (ops.foldl applyOp c).limit = c.limit := by
  induction ops with
  | nil => intro c _ h; exact ⟨h, rfl⟩
  | cons op rest ih =>
    intro c hwf h
    rw [List.foldl_cons]
    have h1 := applyOp_inv c op
      (fun k v hkv => hwf k v (hkv ▸ List.mem_cons_self _ _)) h
    have h2 := ih (applyOp c op)
      (fun k v hkv => hwf k v (List.mem_cons_of_mem _ hkv)) h1.1
    exact ⟨h2.1, h2.2.trans h1.2⟩

lemma runOps_inv (limit : ℕ) (ops : List Op) (hwf : OpsWF ops) :
    WF (runOps limit ops) ∧ (runOps limit ops).items.length ≤ limit ∧
      (runOps limit ops).limit = limit := by
  obtain ⟨⟨hwfc, hlen⟩, hlim⟩ := foldOps_inv ops { limit := limit, items := [] }
    (fun k v hkv => hwf k v hkv) ⟨⟨by simp, by simp⟩, by simp⟩
  rw [hlim] at hlen
  exact ⟨hwfc, hlen, hlim⟩

end TextureCache

lemma deletePageKey_eq_filter (l : List PageKey) (k : PageKey)
    (h : l.Nodup) : deletePageKey l k = l.filter (fun e => ¬e = k) := by
  induction l with
  | nil => rfl
  | cons e rest ih =>
    rw [List.nodup_cons] at h
    by_cases hk : e = k
    · rw [deletePageKey, if_pos hk, List.filter_cons_of_neg (by simp [hk])]
      rw [List.filter_eq_self.2]
      intro a ha
      simp only [decide_eq_true_eq]
      intro hak
      exact h.1 (by rw [hk, ← hak]; exact ha)
    · rw [deletePageKey, if_neg hk, List.filter_cons_of_pos (by simp [hk]),
        ih h.2]

lemma foldDeletePK_eq_filter (del : PageKey → Bool) (snap : List PageKey) :
    ∀ l : List PageKey, l.Nodup →
      snap.foldl (fun c key => if del key then deletePageKey c key else c) l =
        l.filter (fun e => ¬(del e = true ∧ e ∈ snap)) := by
  induction snap with
  | nil =>
    intro l _
    simp
  | cons k ks ih =>
    intro l h
    rw [List.foldl_cons]
    by_cases hdel : del k = true
    · rw [if_pos hdel, deletePageKey_eq_filter l k h]
      have hnd2 : (l.filter (fun e => ¬e = k)).Nodup :=
        List.Nodup.sublist (List.filter_sublist l) h
      rw [ih _ hnd2, List.filter_filter]
      apply List.filter_congr
      intro a _
      by_cases h1 : a = k <;> by_cases h2 : del a = true <;>
        by_cases h3 : a ∈ ks <;> simp [h1, h2, h3] <;> simp_all
    · rw [if_neg hdel, ih _ h]
      apply List.filter_congr
      intro a _
      by_cases h1 : a = k <;> by_cases h2 : del a = true <;>
        by_cases h3 : a ∈ ks <;> simp [h1, h2, h3] <;> simp_all

open SheetDeform

/-- The sine separation fact behind the C3 counterexample:
`sin(1/4) ≠ sin²(1/2)`. -/
lemma sin_quarter_ne_sq_sin_half : Real.sin (2 : ℝ)⁻¹ ^ 2 < Real.sin (4 : ℝ)⁻¹ := by
  have hb1 : |(4 : ℝ)⁻¹| ≤ 1 := by rw [abs_of_nonneg] <;> norm_num
  have h14 := Real.sin_bound hb1
  have hb2 : |(2 : ℝ)⁻¹| ≤ 1 := by rw [abs_of_nonneg] <;> norm_num
  have h12 := Real.sin_bound hb2
  rw [show |(4 : ℝ)⁻¹| = 4⁻¹ by norm_num] at h14
  rw [show |(2 : ℝ)⁻¹| = 2⁻¹ by norm_num] at h12
  have h14l : (6075 : ℝ) / 24576 ≤ Real.sin (4 : ℝ)⁻¹ := by
    have := (abs_le.1 h14).1
    norm_num at this ⊢
    linarith
  have h12u : Real.sin (2 : ℝ)⁻¹ ≤ 741 / 1536 := by
    have := (abs_le.1 h12).2
    norm_num at this ⊢
    linarith
  have hpos : 0 ≤ Real.sin (2 : ℝ)⁻¹ :=
    Real.sin_nonneg_of_nonneg_of_le_pi (by norm_num)
      (by linarith [Real.pi_gt_three])
  nlinarith [h12u, hpos, h14l]

lemma eEff_sampleParams : eEff sampleParams = 1 := by
  unfold eEff nearFlat
  rw [if_neg]
  · rfl
  · simp only [sampleParams]
    norm_num

lemma dist3_nonneg (a b : V3) : 0 ≤ dist3 a b := Real.sqrt_nonneg _

lemma dist3_self (a : V3) : dist3 a a = 0 := by
  unfold dist3
  norm_num

lemma arcAt_mono (pts : List V3) (r : ℕ) :
    arcAt pts r ≤ arcAt pts (r + 1) := by
  rw [arcAt]
  exact le_add_of_nonneg_right (dist3_nonneg _ _)

lemma wSeg_eq (P : SheetDeformParams) (h : 4 ≤ P.segments) :
    wSeg P = P.segments - 1 := by
  unfold wSeg
  omega

lemma layoutE_eq (P : SheetDeformParams) (h : 4 ≤ P.segments) :
    layoutE P = P.segments + 1 := by
  unfold layoutE
  omega

lemma frontBase_length (P : SheetDeformParams) :
    (frontBase P).length = wSeg P + 1 := by
  unfold frontBase
  simp

lemma frontPts_eq (P : SheetDeformParams) (h : 4 ≤ P.segments) :
    frontPts P = frontBase P ++ [(frontBase P).getD (wSeg P) default] := by
  unfold frontPts
  rw [if_pos]
  rw [wSeg_eq P h]
  omega

lemma frontPts_length (P : SheetDeformParams) (h : 4 ≤ P.segments) :
    (frontPts P).length = layoutE P := by
  rw [frontPts_eq P h, List.length_append, frontBase_length, wSeg_eq P h,
    layoutE_eq P h]
  simp
  omega

lemma frontPts_last_eq (P : SheetDeformParams) (h : 4 ≤ P.segments) :
    (frontPts P).getD (layoutE P - 1) default =
      (frontPts P).getD (layoutE P - 2) default := by
  have hw := wSeg_eq P h
  have hE := layoutE_eq P h
  have hlen := frontBase_length P
  have h1 : layoutE P - 1 = (frontBase P).length := by omega
  have h2 : layoutE P - 2 = wSeg P := by omega
  rw [frontPts_eq P h, h1, h2]
  rw [List.getD_append_right (frontBase P) _ default (frontBase P).length
    (le_refl _)]
  rw [List.getD_append (frontBase P) _ default (wSeg P) (by omega)]
  simp

lemma arc_last_delta (P : SheetDeformParams) (h : 4 ≤ P.segments) :
    arcAt (frontPts P) (layoutE P - 1) =
      arcAt (frontPts P) (layoutE P - 2) := by
  have hE := layoutE_eq P h
  have hstep : layoutE P - 1 = (layoutE P - 2) + 1 := by omega
  rw [hstep, arcAt]
  have heq : (frontPts P).getD (layoutE P - 2 + 1) default =
      (frontPts P).getD (layoutE P - 2) default := by
    rw [← hstep]
    exact frontPts_last_eq P h
  rw [heq, dist3_self]
  ring

lemma arcLength_eq (P : SheetDeformParams) (h : 4 ≤ P.segments) :
    arcLength P = arcAt (frontPts P) (layoutE P - 1) := by
  unfold arcLength
  rw [frontPts_length P h]

lemma uArc_zero (P : SheetDeformParams) : uArc P 0 = 0 := by
  unfold uArc
  split_ifs
  · rw [arcAt]
    exact zero_div _
  · norm_num

lemma uArc_last (P : SheetDeformParams) (h : 4 ≤ P.segments) :
    uArc P (layoutE P - 1) = 1 := by
  unfold uArc
  split_ifs with hL
  · rw [← arcLength_eq P h]
    exact div_self (ne_of_gt hL)
  · have hE := layoutE_eq P h
    have hmax : max 1 (layoutE P - 1) = layoutE P - 1 := by omega
    rw [hmax]
    rw [div_self]
    have : (0 : ℕ) < layoutE P - 1 := by omega
    exact_mod_cast Nat.pos_iff_ne_zero.1 this

lemma uArc_mono (P : SheetDeformParams) (r : ℕ) :
    uArc P r ≤ uArc P (r + 1) := by
  unfold uArc
  split_ifs with hL
  · exact div_le_div_of_nonneg_right (arcAt_mono _ r) hL.le
  · exact div_le_div_of_nonneg_right (by exact_mod_cast Nat.le_succ r)
      (Nat.cast_nonneg _)

lemma setUv_at (count : ℕ) (buf : ℕ → ℝ × ℝ) (idx : ℕ) (val : ℝ × ℝ)
    (h : idx < count) : setUv count buf idx val idx = val := by
  unfold setUv
  rw [if_pos h, Function.update_same]

lemma setUv_ne (count : ℕ) (buf : ℕ → ℝ × ℝ) (idx : ℕ) (val : ℝ × ℝ)
    (j : ℕ) (h : j ≠ idx) : setUv count buf idx val j = buf j := by
  unfold setUv
  split_ifs
  · exact Function.update_noteq h val buf
  · rfl

lemma layoutE_pos (P : SheetDeformParams) : 2 ≤ layoutE P :=
  le_max_right _ _

lemma writeRowUv_untouched (P : SheetDeformParams) (buf : ℕ → ℝ × ℝ)
    (a j : ℕ) (h0 : j ≠ 0 + a) (h1 : j ≠ layoutE P + a)
    (h2 : j ≠ 2 * layoutE P + a) (h3 : j ≠ 3 * layoutE P + a) :
    writeRowUv P buf a j = buf j := by
  unfold writeRowUv
  rw [setUv_ne _ _ _ _ _ h3, setUv_ne _ _ _ _ _ h2, setUv_ne _ _ _ _ _ h1,
    setUv_ne _ _ _ _ _ h0]

lemma foldl_writeRow_untouched (P : SheetDeformParams) (l : List ℕ)
    (buf : ℕ → ℝ × ℝ) (j : ℕ)
    (h : ∀ a ∈ l, j ≠ 0 + a ∧ j ≠ layoutE P + a ∧ j ≠ 2 * layoutE P + a ∧
      j ≠ 3 * layoutE P + a) :
    l.foldl (writeRowUv P) buf j = buf j := by
  induction l generalizing buf with
  | nil => rfl
  | cons a t ih =>
    rw [List.foldl_cons]
    have ha := h a (List.mem_cons_self a t)
    rw [ih _ (fun b hb => h b (List.mem_cons_of_mem a hb)),
      writeRowUv_untouched P buf a j ha.1 ha.2.1 ha.2.2.1 ha.2.2.2]

lemma uvAfter_rows (P : SheetDeformParams) (buf0 : ℕ → ℝ × ℝ) (r : ℕ)
    (hr : r < layoutE P) :
    uvAfter P buf0 (0 + r) =
      ((if P.pageSide > 0 then 1 - uArc P r else uArc P r), 0) ∧
    uvAfter P buf0 (layoutE P + r) =
      ((if P.pageSide > 0 then 1 - uArc P r else uArc P r), 1) ∧
    uvAfter P buf0 (2 * layoutE P + r) = (uBackArc P r, 0) ∧
    uvAfter P buf0 (3 * layoutE P + r) = (uBackArc P r, 1) := by
  have hE2 := layoutE_pos P
  set E := layoutE P with hE
  have hsplit : List.range E =
      (List.range r ++ [r]) ++ (List.range (E - (r + 1))).map (fun x => (r + 1) + x) := by
    rw [← List.range_succ, ← List.range_add]
    congr 1
    omega
  have hfold : uvAfter P buf0 =
      ((List.range (E - (r + 1))).map (fun x => (r + 1) + x)).foldl
        (writeRowUv P)
        (writeRowUv P ((List.range r).foldl (writeRowUv P) buf0) r) := by
    unfold uvAfter
    rw [← hE, hsplit, List.foldl_append, List.foldl_append]
    rfl
  have hsuffix : ∀ j : ℕ, (∀ a, r + 1 ≤ a → a < E →
      j ≠ 0 + a ∧ j ≠ E + a ∧ j ≠ 2 * E + a ∧ j ≠ 3 * E + a) →
      uvAfter P buf0 j =
        writeRowUv P ((List.range r).foldl (writeRowUv P) buf0) r j := by
    intro j hj
    rw [hfold]
    apply foldl_writeRow_untouched
    intro a ha
    obtain ⟨x, hx, rfl⟩ := List.mem_map.1 ha
    rw [List.mem_range] at hx
    exact hj _ (by omega) (by omega)
  have hprev : ∀ j : ℕ, (∀ a, a < r →
      j ≠ 0 + a ∧ j ≠ E + a ∧ j ≠ 2 * E + a ∧ j ≠ 3 * E + a) →
      (List.range r).foldl (writeRowUv P) buf0 j = buf0 j := by
    intro j hj
    apply foldl_writeRow_untouched
    intro a ha
    rw [List.mem_range] at ha
    exact hj a ha
  refine ⟨?_, ?_, ?_, ?_⟩
  · rw [hsuffix (0 + r) (by intro a h1 h2; omega)]
    unfold writeRowUv
    rw [setUv_ne _ _ _ _ _ (by omega), setUv_ne _ _ _ _ _ (by omega),
      setUv_ne _ _ _ _ _ (by omega), setUv_at _ _ _ _ (by omega)]
  · rw [hsuffix (E + r) (by intro a h1 h2; omega)]
    unfold writeRowUv
    rw [setUv_ne _ _ _ _ _ (by omega), setUv_ne _ _ _ _ _ (by omega),
      setUv_at _ _ _ _ (by omega)]
  · rw [hsuffix (2 * E + r) (by intro a h1 h2; omega)]
    unfold writeRowUv
    rw [setUv_ne _ _ _ _ _ (by omega), setUv_at _ _ _ _ (by omega)]
  · rw [hsuffix (3 * E + r) (by intro a h1 h2; omega)]
    unfold writeRowUv
    rw [setUv_at _ _ _ _ (by omega)]

/-! ## Theorems for the claims -/

open FlipbookStateMachine FlipbookController PagePhysics

/-- **C5, counterexample.**  The claim says `startDrag` has no effect
from every non-`IDLE` state.  From `ANIMATING_FORWARD` on a 2-page book
at page 0, `startDrag(5, 5, "right")` transitions the machine to
`DRAGGING_FORWARD`: the state does change. -/
theorem claim5_counterexample :
    (FlipbookStateMachine.startDrag
        { state := FlipbookState.ANIMATING_FORWARD, dragData := none,
          currentPage := 0, totalPages := 2, pageStep := 1 }
        5 5 Side.right).1.state ≠ FlipbookState.ANIMATING_FORWARD := by
  decide

/-- **C5, amended.**  `FlipbookStateMachine.startDrag` itself does not
guard on the machine state (it can overwrite drag data and move to a
dragging state from a non-`IDLE` state, though it never changes the
current page); the no-effect guarantee for non-`IDLE` states holds one
level up, in `FlipbookController.handlePointerDown`, which returns
without calling `startDrag` whenever the machine is not `IDLE`, leaving
the controller — machine state, current page and drag data included —
unchanged. -/
theorem claim5_theorem :
    (∀ (c : FlipbookController) (x y : ℚ),
        c.sm.state ≠ FlipbookState.IDLE → handlePointerDown c x y = c) ∧
    (∀ (sm : FlipbookStateMachine) (x y : ℚ) (side : Side),
        (startDrag sm x y side).1.currentPage = sm.currentPage) := by
  constructor
  · intro c x y h
    unfold handlePointerDown
    rw [if_pos h]
  · intro sm x y side
    unfold startDrag
    split_ifs <;> simp

/-- **C5, witness.** -/
theorem claim5_witness :
    ({ sm := { state := FlipbookState.SETTLING, dragData := none,
               currentPage := 0, totalPages := 2, pageStep := 1 },
       physics := { position := 0, velocity := 0, target := 0 },
       isDragging := false, dragStartX := 0, containerWidth := 100,
       turnAreaFraction := 3 / 10 } : FlipbookController).sm.state ≠
        FlipbookState.IDLE ∧
      handlePointerDown
        { sm := { state := FlipbookState.SETTLING, dragData := none,
                  currentPage := 0, totalPages := 2, pageStep := 1 },
          physics := { position := 0, velocity := 0, target := 0 },
          isDragging := false, dragStartX := 0, containerWidth := 100,
          turnAreaFraction := 3 / 10 } 1 1 =
        { sm := { state := FlipbookState.SETTLING, dragData := none,
                  currentPage := 0, totalPages := 2, pageStep := 1 },
          physics := { position := 0, velocity := 0, target := 0 },
          isDragging := false, dragStartX := 0, containerWidth := 100,
          turnAreaFraction := 3 / 10 } :=
  ⟨by decide, claim5_theorem.1 _ 1 1 (by decide)⟩

/-- **C6.**  From a dragging state, `endDrag()` with recorded progress
0.49 yields `shouldComplete = false` and `SETTLING`; with 0.51 it
yields `shouldComplete = true` and the `ANIMATING` state of the drag
direction; at exactly 0.5 the tie-break is not-complete:
`shouldComplete = false` and `SETTLING`. -/
theorem claim6_theorem (sm : FlipbookStateMachine) (d : DragData)
    (hst : sm.state = FlipbookState.DRAGGING_FORWARD ∨
      sm.state = FlipbookState.DRAGGING_BACKWARD)
    (hd : sm.dragData = some d) :
    (d.progress = 49 / 100 →
      (endDrag sm).2.shouldComplete = false ∧
      (endDrag sm).1.state = FlipbookState.SETTLING) ∧
    (d.progress = 51 / 100 →
      (endDrag sm).2.shouldComplete = true ∧
      (endDrag sm).1.state =
        (if sm.state = FlipbookState.DRAGGING_FORWARD
          then FlipbookState.ANIMATING_FORWARD
          else FlipbookState.ANIMATING_BACKWARD)) ∧
    (d.progress = 1 / 2 →
      (endDrag sm).2.shouldComplete = false ∧
      (endDrag sm).1.state = FlipbookState.SETTLING) := by
  refine ⟨fun hp => ?_, fun hp => ?_, fun hp => ?_⟩ <;>
    · unfold endDrag
      rw [hd]
      rcases hst with h | h <;> simp [h, hp] <;> norm_num

/-- **C6, witness.** -/
theorem claim6_witness :
    ({ state := FlipbookState.DRAGGING_FORWARD,
       dragData := some { startX := 0, startY := 0, currentX := 0,
                          currentY := 0, progress := 49 / 100 },
       currentPage := 0, totalPages := 10,
       pageStep := 1 } : FlipbookStateMachine).state =
        FlipbookState.DRAGGING_FORWARD ∧
      (endDrag
        { state := FlipbookState.DRAGGING_FORWARD,
          dragData := some { startX := 0, startY := 0, currentX := 0,
                             currentY := 0, progress := 49 / 100 },
          currentPage := 0, totalPages := 10,
          pageStep := 1 }).2.shouldComplete = false :=
  ⟨rfl, ((claim6_theorem _ _ (Or.inl rfl) rfl).1 rfl).1⟩

/-- **C7.**  `turnPage(direction)` succeeds exactly from `IDLE` with a
turnable direction (forward iff `currentPage + pageStep < totalPages`,
backward iff `currentPage − pageStep ≥ 0`), in which case it moves to
the matching `ANIMATING` state without changing the current page; in
every other case it returns `false` and leaves the machine unchanged.
In particular `FlipbookController.turnPageForward()` returns `false`
and changes nothing whenever `canTurnForward()` is `false`. -/
theorem claim7_theorem (sm : FlipbookStateMachine) (direction : Direction) :
    ((turnPage sm direction).2 = true ↔
      sm.state = FlipbookState.IDLE ∧
        (if direction = Direction.forward
          then sm.currentPage + sm.pageStep < sm.totalPages
          else sm.currentPage - sm.pageStep ≥ 0)) ∧
    ((turnPage sm direction).2 = true →
      (turnPage sm direction).1.state =
        (if direction = Direction.forward
          then FlipbookState.ANIMATING_FORWARD
          else FlipbookState.ANIMATING_BACKWARD) ∧
      (turnPage sm direction).1.currentPage = sm.currentPage) ∧
    ((turnPage sm direction).2 = false → (turnPage sm direction).1 = sm) ∧
    (∀ c : FlipbookController, canTurnForward c.sm = false →
      turnPageForward c = (c, false)) := by
  refine ⟨?_, ?_, ?_, ?_⟩
  · unfold turnPage
    cases direction <;>
      · simp [canTurnForward, canTurnBackward]
        split_ifs <;> simp_all
  · intro h
    unfold turnPage at h ⊢
    cases direction <;>
      · split_ifs at h ⊢ <;> simp_all
  · intro h
    unfold turnPage at h ⊢
    cases direction <;>
      · split_ifs at h ⊢ <;> simp_all
  · intro c h
    unfold turnPageForward
    simp [h]

/-- **C7, witness** — the boundary guard on a 1-page book. -/
theorem claim7_witness :
    (turnPage { state := FlipbookState.IDLE, dragData := none,
                currentPage := 0, totalPages := 1, pageStep := 1 }
        Direction.forward).2 = false ∧
      (turnPage { state := FlipbookState.IDLE, dragData := none,
                  currentPage := 0, totalPages := 1, pageStep := 1 }
          Direction.forward).1 =
        { state := FlipbookState.IDLE, dragData := none,
          currentPage := 0, totalPages := 1, pageStep := 1 } :=
  ⟨by decide, (claim7_theorem _ Direction.forward).2.2.1 (by decide)⟩

/-- **C10.**  `endDrag()` from a non-dragging state with no recorded
drag data is not a no-op: it returns
`{shouldComplete: false, direction: "backward"}` and puts the machine
in `SETTLING`; `completeSettling()` then returns it to `IDLE` (clearing
drag data). -/
theorem claim10_theorem (sm : FlipbookStateMachine)
    (h1 : sm.state ≠ FlipbookState.DRAGGING_FORWARD)
    (h2 : sm.state ≠ FlipbookState.DRAGGING_BACKWARD)
    (hd : sm.dragData = none) :
    endDrag sm = ({ sm with state := FlipbookState.SETTLING },
      { shouldComplete := false, direction := Direction.backward }) ∧
    (∀ sm2 : FlipbookStateMachine, completeSettling sm2 =
      { sm2 with state := FlipbookState.IDLE, dragData := none }) := by
  constructor
  · unfold endDrag
    simp only [hd, if_neg h1]
    norm_num [setState_eq]
    exact hd
  · intro sm2
    unfold completeSettling
    rw [setState_eq]

/-- **C10, witness.** -/
theorem claim10_witness :
    ({ state := FlipbookState.IDLE, dragData := none, currentPage := 0,
       totalPages := 3, pageStep := 1 } : FlipbookStateMachine).dragData =
        none ∧
      endDrag { state := FlipbookState.IDLE, dragData := none,
                currentPage := 0, totalPages := 3, pageStep := 1 } =
        ({ state := FlipbookState.SETTLING, dragData := none,
           currentPage := 0, totalPages := 3, pageStep := 1 },
         { shouldComplete := false, direction := Direction.backward }) :=
  ⟨rfl, (claim10_theorem _ (by decide) (by decide) rfl).1⟩

/-- **C2.**  With the default configuration, for every fixed
`0 < dt ≤ 0.033` and every initial state with position in `[0,1]` and
target 0 or 1, the position stays in `[0,1]` after every step and
`isAtRest()` becomes true after finitely many `step(dt)` calls. -/
theorem claim2_theorem (dt : ℚ) (s0 : PhysicsState) (hdt0 : 0 < dt)
    (hdt1 : dt ≤ 33 / 1000) (hp0 : 0 ≤ s0.position) (hp1 : s0.position ≤ 1)
    (ht : s0.target = 0 ∨ s0.target = 1) :
    (∀ n : ℕ, 0 ≤ ((step dt)^[n] s0).position ∧
      ((step dt)^[n] s0).position ≤ 1) ∧
    (∃ n : ℕ, isAtRest ((step dt)^[n] s0)) := by
  have hdt2 : dt * dt ≤ 33 / 1000 * (33 / 1000) :=
    mul_le_mul hdt1 hdt1 hdt0.le (by norm_num)
  refine ⟨fun n => (iter_invariant dt s0 hp0 hp1 n).1, ?_⟩
  have hrho0 : (0 : ℚ) ≤ 1 - 60 * dt ^ 2 := by nlinarith
  have hrho1 : (1 - 60 * dt ^ 2 : ℚ) < 1 := by nlinarith [pow_pos hdt0 2]
  have hV0 : (0 : ℚ) ≤ lyap dt s0 := by unfold lyap; positivity
  have heps : (0 : ℚ) < dt ^ 2 / 1000000 / (lyap dt s0 + 1) :=
    div_pos (by positivity) (by linarith)
  obtain ⟨n, hn⟩ := exists_pow_lt_of_lt_one heps hrho1
  refine ⟨n, rest_of_small dt _ hdt0 ?_⟩
  have hiter := lyap_iter dt s0 hdt0 hdt1 hp0 hp1 ht n
  have hmul : (1 - 60 * dt ^ 2) ^ n * (lyap dt s0 + 1) <
      dt ^ 2 / 1000000 := by
    rw [lt_div_iff₀ (by linarith : (0:ℚ) < lyap dt s0 + 1)] at hn
    exact hn
  have hpow : (0 : ℚ) ≤ (1 - 60 * dt ^ 2) ^ n := pow_nonneg hrho0 n
  nlinarith [hiter, hmul, hpow]

/-- **C2, witness.** -/
theorem claim2_witness :
    (0 : ℚ) < 1 / 100 ∧ (1 / 100 : ℚ) ≤ 33 / 1000 ∧
      ((∀ n : ℕ,
          0 ≤ ((PagePhysics.step (1 / 100))^[n]
              { position := 1, velocity := 0, target := 0 }).position ∧
          ((PagePhysics.step (1 / 100))^[n]
              { position := 1, velocity := 0, target := 0 }).position ≤ 1) ∧
        (∃ n : ℕ, PagePhysics.isAtRest ((PagePhysics.step (1 / 100))^[n]
            { position := 1, velocity := 0, target := 0 }))) :=
  ⟨by norm_num, by norm_num,
    claim2_theorem (1 / 100) { position := 1, velocity := 0, target := 0 }
      (by norm_num) (by norm_num) (by norm_num) (by norm_num) (Or.inl rfl)⟩

open TextureCache in
/-- **C8.**  For every sequence of `set`/`get` calls (with each value
stored under its own key, as the program does), the cache never holds
more than `limit` entries after a `set`; when an insertion pushes the
size over the limit, eviction brings it back to exactly `limit` and
every evicted entry has a `lastUsed` no newer than that of every kept
entry (strict LRU); `get` refreshes `lastUsed` of the hit entry and
touches nothing else. -/
theorem claim8_theorem (limit : ℕ) (ops : List Op) (hwf : OpsWF ops) :
    (runOps limit ops).items.length ≤ limit ∧
    (∀ (key : String) (value : CachedTexture), value.key = key →
      limit < (mapSet (runOps limit ops).items key value).length →
        (setOp (runOps limit ops) key value).items.length = limit ∧
        ∀ e ∈ (setOp (runOps limit ops) key value).items,
          ∀ r ∈ mapSet (runOps limit ops).items key value,
            r.1 ∉ (setOp (runOps limit ops) key value).items.map Prod.fst →
              r.2.lastUsed ≤ e.2.lastUsed) ∧
    (∀ (c : TextureCache) (key : String) (now : ℤ),
      ∀ e ∈ (getOp c key now).items,
        (e.1 = key → e.2.lastUsed = now) ∧ (e.1 ≠ key → e ∈ c.items)) := by
  obtain ⟨hwfc, hlen, hlim⟩ := runOps_inv limit ops hwf
  refine ⟨hlen, ?_, ?_⟩
  · intro key value hkv hover
    set c := runOps limit ops with hc
    set c1 : TextureCache := { c with items := mapSet c.items key value }
      with hc1
    have hwf1 : WF c1 := by
      refine ⟨mapSet_fst_nodup _ _ _ hwfc.1, ?_⟩
      intro e he
      rcases mapSet_entries _ _ _ e he with rfl | hin
      · exact hkv
      · exact hwfc.2 e hin
    have hlim1 : c1.limit = limit := hlim
    have hover1 : c1.limit < c1.items.length := by
      rw [hlim1]
      exact hover
    have hsets : setOp c key value = evict c1 := rfl
    obtain ⟨hl, _, hlru⟩ := evict_over c1 hwf1.1 hwf1.2 hover1
    rw [hsets]
    exact ⟨hlim1 ▸ hl, hlru⟩
  · intro c key now e he
    unfold getOp at he
    obtain ⟨a, ha, hae⟩ := List.mem_map.1 he
    by_cases hk : a.1 = key
    · rw [if_pos hk] at hae
      constructor
      · intro _
        rw [← hae]
      · intro hne
        exact absurd (by rw [← hae]; exact hk) hne
    · rw [if_neg hk] at hae
      constructor
      · intro heq
        exact absurd (by rw [← hae] at heq; exact heq) hk
      · intro _
        rw [← hae]
        exact ha

/-- **C8, witness.** -/
theorem claim8_witness :
    (TextureCache.runOps 1
      [TextureCache.Op.set "a"
        { key := "a", texture := 0, width := 1, height := 1, lastUsed := 0 },
       TextureCache.Op.set "b"
        { key := "b", texture := 1, width := 1, height := 1, lastUsed := 5 }]).items.length ≤ 1 :=
  (claim8_theorem 1 _ (by
    rintro k v hm
    simp only [List.mem_cons, List.not_mem_nil, or_false] at hm
    rcases hm with h | h <;> · injection h with h1 h2; rw [h1, h2])).1

/-- **C9.**  With a document loaded and a valid current page number,
after `enforcePageCacheWindow()` every surviving cache key belongs to
the current document and lies within `[base − 3, base + 3]` of the
spread anchor, and every key outside that window is evicted regardless
of recency. -/
theorem claim9_theorem (env : PageCacheEnv) (cache : List PageKey)
    (d : String) (hdoc : env.documentId = some d)
    (hcp : 1 ≤ env.currentPageNumber) (hnd : cache.Nodup) :
    (∀ key ∈ enforcePageCacheWindow env cache,
      key.docId = d ∧
      (if env.layoutMode = "double" then env.currentSpreadLeft
        else env.currentPageNumber) - 3 ≤ key.pageNumber ∧
      key.pageNumber ≤ (if env.layoutMode = "double" then env.currentSpreadLeft
        else env.currentPageNumber) + 3) ∧
    (∀ key ∈ cache,
      (key.pageNumber < (if env.layoutMode = "double" then env.currentSpreadLeft
          else env.currentPageNumber) - 3 ∨
        key.pageNumber > (if env.layoutMode = "double" then env.currentSpreadLeft
          else env.currentPageNumber) + 3) →
      key ∉ enforcePageCacheWindow env cache) := by
  have hbase : (if env.layoutMode = "double" then env.currentSpreadLeft
      else max 1 env.currentPageNumber) =
      (if env.layoutMode = "double" then env.currentSpreadLeft
        else env.currentPageNumber) := by
    split_ifs
    · rfl
    · exact max_eq_right hcp
  set base := if env.layoutMode = "double" then env.currentSpreadLeft
    else env.currentPageNumber with hbasedef
  have henf : enforcePageCacheWindow env cache =
      cache.filter (fun e =>
        ¬((decide (¬e.docId = d) ||
            decide (e.pageNumber < max 1 (base - 3) ∨
              e.pageNumber > min env.totalDocumentPages (base + 3))) = true ∧
          e ∈ cache)) := by
    unfold enforcePageCacheWindow
    rw [hdoc]
    simp only [hbase]
    have hfun : (fun (c : List PageKey) (key : PageKey) =>
        if key.docId ≠ d then deletePageKey c key
        else if key.pageNumber < max 1 (base - 3) ∨
            key.pageNumber > min env.totalDocumentPages (base + 3) then
          deletePageKey c key
        else c) =
        (fun (c : List PageKey) (key : PageKey) =>
          if (decide (¬key.docId = d) ||
              decide (key.pageNumber < max 1 (base - 3) ∨
                key.pageNumber > min env.totalDocumentPages (base + 3))) = true
          then deletePageKey c key else c) := by
      funext c key
      split_ifs <;> simp_all <;> omega
    rw [hfun]
    exact foldDeletePK_eq_filter _ cache cache hnd
  constructor
  · intro key hkey
    rw [henf] at hkey
    obtain ⟨hmem, hpred⟩ := List.mem_filter.1 hkey
    have hnp0 := of_decide_eq_true hpred
    have hnp : ¬((¬key.docId = d ∨
        (key.pageNumber < max 1 (base - 3) ∨
          key.pageNumber > min env.totalDocumentPages (base + 3))) ∧
        key ∈ cache) := by
      rintro ⟨hab, hm⟩
      apply hnp0
      refine ⟨?_, hm⟩
      rcases hab with h | h
      · rw [Bool.or_eq_true]
        exact Or.inl (decide_eq_true h)
      · rw [Bool.or_eq_true]
        exact Or.inr (decide_eq_true h)
    refine ⟨?_, ?_, ?_⟩
    · by_contra hne
      exact hnp ⟨Or.inl hne, hmem⟩
    · by_contra hlt
      push_neg at hlt
      exact hnp ⟨Or.inr (Or.inl (lt_of_lt_of_le hlt (le_max_right 1 _))),
        hmem⟩
    · by_contra hgt
      push_neg at hgt
      exact hnp ⟨Or.inr (Or.inr (lt_of_le_of_lt
        (min_le_right env.totalDocumentPages _) hgt)), hmem⟩
  · intro key hkey hout
    rw [henf]
    intro hcon
    obtain ⟨_, hpred⟩ := List.mem_filter.1 hcon
    have hnp0 := of_decide_eq_true hpred
    have hnp : ¬((¬key.docId = d ∨
        (key.pageNumber < max 1 (base - 3) ∨
          key.pageNumber > min env.totalDocumentPages (base + 3))) ∧
        key ∈ cache) := by
      rintro ⟨hab, hm⟩
      apply hnp0
      refine ⟨?_, hm⟩
      rcases hab with h | h
      · rw [Bool.or_eq_true]
        exact Or.inl (decide_eq_true h)
      · rw [Bool.or_eq_true]
        exact Or.inr (decide_eq_true h)
    rcases hout with h | h
    · exact hnp ⟨Or.inr (Or.inl (lt_of_lt_of_le h (le_max_right 1 _))), hkey⟩
    · exact hnp ⟨Or.inr (Or.inr (lt_of_le_of_lt
        (min_le_right env.totalDocumentPages _) h)), hkey⟩

/-- **C9, witness.** -/
theorem claim9_witness :
    (⟨"doc", "single", 9, "1"⟩ : PageKey) ∉
      enforcePageCacheWindow
        { documentId := some "doc", layoutMode := "single",
          currentSpreadLeft := 1, currentPageNumber := 5,
          totalDocumentPages := 20 }
        [⟨"doc", "single", 2, "1"⟩, ⟨"doc", "single", 9, "1"⟩] :=
  (claim9_theorem _ _ "doc" rfl (by norm_num) (by decide)).2
    ⟨"doc", "single", 9, "1"⟩ (by decide) (by decide)

/-- **C3, counterexample.**  At a unit-width horizontal sheet with
flexibility 1, angle 90° (so `e = 1`), the code computes
`baseAxis = 1·(1 − sin(1/4)/2 − 1/20)` — `Math.sin((e/2)*(e/2))` is
`sin(e²/4)` — while the spec formula gives
`1·(1 − sin²(1/2)/2 − 1/20)`, and `sin(1/4) ≠ sin²(1/2)`. -/
theorem claim3_counterexample :
    baseAxis sampleParams ≠ baseAxisSpec sampleParams := by
  intro heq
  unfold baseAxis baseAxisSpec at heq
  rw [eEff_sampleParams] at heq
  have hax : axisLen sampleParams = 1 := by
    unfold axisLen
    rw [if_neg]
    · rfl
    · simp [sampleParams]
  rw [hax] at heq
  rw [show (1 : ℝ) / 2 * (1 / 2) = (4 : ℝ)⁻¹ by norm_num] at heq
  rw [show (1 : ℝ) / 2 = (2 : ℝ)⁻¹ by norm_num] at heq
  have := sin_quarter_ne_sq_sin_half
  nlinarith [heq, this]

/-- **C3, amended.**  The baseline axis length equals
`axisLength · (1 − sin(e²/4)/2 − e/20)` (the code computes
`Math.sin((e/2)*(e/2))`, the sine of the square, not the square of the
sine), where `axisLength` is the width (height when vertical) and the
effective flexibility `e` is 0 when the sheet is hard or the angle is
within 1 degree of 0 or 180 (strictly below 1 or strictly above 179),
and the `flexibility` parameter otherwise. -/
theorem claim3_theorem (P : SheetDeformParams) :
    baseAxis P =
      axisLen P * (1 - Real.sin (eEff P ^ 2 / 4) / 2 - eEff P / 20) ∧
    (P.isHard = true ∨ P.sheetAngleDeg < 1 ∨ P.sheetAngleDeg > 179 →
      eEff P = 0) ∧
    (¬(P.isHard = true ∨ P.sheetAngleDeg < 1 ∨ P.sheetAngleDeg > 179) →
      eEff P = P.flexibility) ∧
    axisLen P = (if P.vertical = true then P.height else P.width) := by
  refine ⟨?_, ?_, ?_, rfl⟩
  · unfold baseAxis
    rw [show eEff P / 2 * (eEff P / 2) = eEff P ^ 2 / 4 by ring]
  · intro h
    unfold eEff nearFlat
    rw [if_pos h]
  · intro h
    unfold eEff nearFlat
    rw [if_neg h]

/-- **C3, witness.** -/
theorem claim3_witness :
    ¬(sampleParams.isHard = true ∨ sampleParams.sheetAngleDeg < 1 ∨
        sampleParams.sheetAngleDeg > 179) ∧
      eEff sampleParams = sampleParams.flexibility :=
  ⟨by simp only [sampleParams]; norm_num,
   (claim3_theorem sampleParams).2.2.1
     (by simp only [sampleParams]; norm_num)⟩

/-- **C1, counterexample.**  At a unit sheet with 20 segments at 90°,
the final per-segment arc delta of the resampled front curve is not
strictly positive: `updateSheetGeometry` pushes a clone of the last
sample point (`if (w > 2) frontPts.push(frontPts[w].clone())`), so the
last segment has arc delta exactly 0. -/
theorem claim1_counterexample :
    ¬(arcAt (frontPts sampleParams) (layoutE sampleParams - 2) <
      arcAt (frontPts sampleParams) (layoutE sampleParams - 1)) := by
  rw [arc_last_delta sampleParams (by simp [sampleParams])]
  exact lt_irrefl _

/-- **C1, amended.**  For segment counts of at least 4 (the program
uses 60), the front-curve arc parameter `uArc` is monotonically
nondecreasing from 0 at the first vertex row to 1 at the last, and
every per-segment arc delta is nonnegative — but not strictly
positive: the final row duplicates the last sample point, so the last
arc delta is exactly zero. -/
theorem claim1_theorem (P : SheetDeformParams) (h : 4 ≤ P.segments) :
    uArc P 0 = 0 ∧
    uArc P (layoutE P - 1) = 1 ∧
    (∀ r : ℕ, uArc P r ≤ uArc P (r + 1)) ∧
    (∀ r : ℕ, arcAt (frontPts P) r ≤ arcAt (frontPts P) (r + 1)) ∧
    arcAt (frontPts P) (layoutE P - 1) = arcAt (frontPts P) (layoutE P - 2) :=
  ⟨uArc_zero P, uArc_last P h, uArc_mono P, arcAt_mono (frontPts P),
    arc_last_delta P h⟩

/-- **C1, witness.** -/
theorem claim1_witness :
    4 ≤ sampleParams.segments ∧
      uArc sampleParams 0 = 0 ∧ uArc sampleParams (layoutE sampleParams - 1) = 1 :=
  ⟨by simp [sampleParams],
   (claim1_theorem sampleParams (by simp [sampleParams])).1,
   (claim1_theorem sampleParams (by simp [sampleParams])).2.1⟩

/-- **C4.**  For every vertex row `r` written by `updateSheetGeometry`,
the back-face UV `u` equals `uBackArc` — the back curve's own
cumulative-arc-length parameter — unconditionally, while the front-face
UV `u` equals `1 − uArc` when `pageSide > 0` and `uArc` otherwise; the
back-face mapping never depends on the page side. -/
theorem claim4_theorem (P : SheetDeformParams) (buf0 : ℕ → ℝ × ℝ) (r : ℕ)
    (hr : r < layoutE P) :
    uvAfter P buf0 (2 * layoutE P + r) = (uBackArc P r, 0) ∧
    uvAfter P buf0 (3 * layoutE P + r) = (uBackArc P r, 1) ∧
    uvAfter P buf0 (0 + r) =
      ((if P.pageSide > 0 then 1 - uArc P r else uArc P r), 0) ∧
    uvAfter P buf0 (layoutE P + r) =
      ((if P.pageSide > 0 then 1 - uArc P r else uArc P r), 1) ∧
    (∀ s : ℝ, uvAfter { P with pageSide := s } buf0 (2 * layoutE P + r) =
      uvAfter P buf0 (2 * layoutE P + r)) := by
  obtain ⟨hf0, hf1, hb0, hb1⟩ := uvAfter_rows P buf0 r hr
  refine ⟨hb0, hb1, hf0, hf1, ?_⟩
  intro s
  have hr2 : r < layoutE { P with pageSide := s } := hr
  obtain ⟨_, _, hb0s, _⟩ := uvAfter_rows { P with pageSide := s } buf0 r hr2
  rw [hb0]
  have hE : layoutE { P with pageSide := s } = layoutE P := rfl
  rw [hE] at hb0s
  rw [hb0s]
  have hback : uBackArc { P with pageSide := s } r = uBackArc P r := rfl
  rw [hback]

/-- **C4, witness.** -/
theorem claim4_witness :
    (2 : ℕ) < layoutE sampleParams ∧
      uvAfter sampleParams (fun _ => (0, 0)) (2 * layoutE sampleParams + 2) =
        (uBackArc sampleParams 2, 0) :=
  ⟨by simp [layoutE, sampleParams],
   (claim4_theorem sampleParams (fun _ => (0, 0)) 2
     (by simp [layoutE, sampleParams])).1⟩

end Flipping
